import Mathlib

/-!
Verification of the query-answering pipeline in `src/rag.ts` (the "Nick" RAG
chatbot).  The TypeScript source is shallowly embedded: the external providers
(OpenAI embeddings, the Pinecone vector index, OpenAI chat completions) are
modelled as an explicit environment of functions returning `Except String _`
(an `Except.error` models a thrown provider error), and every function of
`rag.ts` is translated to a pure Lean function over that environment.
Similarity scores (floats in `[0,1]` in the source) are modelled as rationals.
JavaScript string primitives (`includes`, `substring`, `split`, `trim`,
`toLowerCase`, `parseInt`, `Array.prototype.sort` with the comparator
`(a, b) => b.score - a.score`) are modelled by executable helpers with the
corresponding semantics; JS `sort` with that comparator is stable (ES2019), so
it is modelled by a stable insertion sort descending on `score`.
-/

namespace NickRag

/-- Chunk metadata as stored in the vector index (`match.metadata` in
`rag.ts`): optional `text`, `sheet` and `row` fields. -/
structure Meta where
  text : Option String := none
  sheet : Option String := none
  row : Option Nat := none
deriving DecidableEq

/-- A retrieved chunk, the `{ text, metadata, score }` shape used throughout
`rag.ts`. -/
structure Chunk where
  text : String
  metadata : Meta
  score : ℚ
deriving DecidableEq

instance : Inhabited Chunk := ⟨{ text := "", metadata := {}, score := 0 }⟩

/-- A raw vector-index match (`queryResponse.matches` entry): metadata and
score may be absent. -/
structure IndexMatch where
  metadata : Option Meta := none
  score : Option ℚ := none
deriving DecidableEq

/-- One conversation turn `{ role, content }` supplied by the caller. -/
structure Turn where
  role : String
  content : String
deriving DecidableEq

/-- One entry of `RAGResult.sources`. -/
structure Source where
  sheet : String
  row : Option Nat
  text : String
deriving DecidableEq

/-- The `RAGResult` interface of `rag.ts`: answer plus optional sources. -/
structure RAGResult where
  answer : String
  sources : Option (List Source) := none
deriving DecidableEq

/-- A role-tagged chat message sent to the generation provider. -/
structure ChatMsg where
  role : String
  content : String
deriving DecidableEq

/-- A chat-completion request: model name, messages, temperature and
`max_tokens`, as passed to `openai.chat.completions.create`. -/
structure ChatRequest where
  model : String
  messages : List ChatMsg
  temperature : ℚ
  maxTokens : Nat
deriving DecidableEq

/-- The environment of external providers.  `embeddings` models
`openai.embeddings.create` (input text to vector), `query` models
`index.query` (vector and topK to matches), `chat` models
`openai.chat.completions.create` (request to completion content, with the
empty string also covering a null `content`).  An `Except.error` models a
thrown provider error. -/
structure Env where
  embeddings : String → Except String (List ℚ)
  query : List ℚ → Nat → Except String (List IndexMatch)
  chat : ChatRequest → Except String String

/-! ### JavaScript string-primitive models -/

/-- Does the character list contain `pat` as a contiguous sublist?  Model of
JS `String.prototype.includes` (on exploded strings). -/
def charsContains (pat : List Char) : List Char → Bool
  | [] => pat.isEmpty
  | c :: rest => pat.isPrefixOf (c :: rest) || charsContains pat rest

/-- JS `s.includes(pat)`. -/
def jsIncludes (s pat : String) : Bool :=
  charsContains pat.data s.data

/-- JS `s.substring(0, n)`. -/
def jsSubstring (s : String) (n : Nat) : String :=
  ⟨s.data.take n⟩

/-- JS `arr.slice(-n)`: the last `n` elements (the whole list when shorter). -/
def jsSliceLast (n : Nat) (l : List α) : List α :=
  l.drop (l.length - n)

/-- JS `s.toLowerCase()` (ASCII case folding). -/
def jsToLowerCase (s : String) : String :=
  ⟨s.data.map Char.toLower⟩

/-- JS `s.trim()`. -/
def jsTrim (s : String) : String :=
  ⟨((s.data.dropWhile Char.isWhitespace).reverse.dropWhile Char.isWhitespace).reverse⟩

/-- Worker for `jsSplitChar`: splits on the separator, keeping empty pieces,
accumulating the current piece in reverse. -/
def splitCharGo (sep : Char) : List Char → List Char → List String
  | [], acc => [⟨acc.reverse⟩]
  | c :: rest, acc =>
    if c = sep then ⟨acc.reverse⟩ :: splitCharGo sep rest []
    else splitCharGo sep rest (c :: acc)

/-- JS `s.split(sep)` for a one-character separator (the source only splits on
`'\n'` and `','`). -/
def jsSplitChar (sep : Char) (s : String) : List String :=
  splitCharGo sep s.data []

/-- JS `arr.join(sep)`. -/
def jsJoin (sep : String) : List String → String
  | [] => ""
  | [x] => x
  | x :: rest => x ++ sep ++ jsJoin sep rest

/-- JS `x || d` on an optional string: `none` and the empty string are falsy. -/
def jsOrElse (s : Option String) (d : String) : String :=
  match s with
  | some v => if v = "" then d else v
  | none => d

/-- Decimal digit value of a character, if any. -/
def decDigitVal (c : Char) : Option Nat :=
  if '0' ≤ c ∧ c ≤ '9' then some (c.toNat - '0'.toNat) else none

/-- Hexadecimal digit value of a character, if any. -/
def hexDigitVal (c : Char) : Option Nat :=
  if '0' ≤ c ∧ c ≤ '9' then some (c.toNat - '0'.toNat)
  else if 'a' ≤ c ∧ c ≤ 'f' then some (c.toNat - 'a'.toNat + 10)
  else if 'A' ≤ c ∧ c ≤ 'F' then some (c.toNat - 'A'.toNat + 10)
  else none

/-- Accumulate the value of the longest digit prefix. -/
def parseDigits (dv : Char → Option Nat) (base : Nat) : List Char → Nat → Nat
  | [], acc => acc
  | c :: rest, acc =>
    match dv c with
    | some v => parseDigits dv base rest (acc * base + v)
    | none => acc

/-- Unsigned part of JS `parseInt` (radix auto-detection: `0x`/`0X` prefix
means hexadecimal, otherwise decimal); `none` models `NaN`. -/
def jsParseIntUnsigned : List Char → Option Nat
  | '0' :: x :: rest =>
    if x = 'x' ∨ x = 'X' then
      match rest with
      | [] => none
      | c :: _ =>
        match hexDigitVal c with
        | some _ => some (parseDigits hexDigitVal 16 rest 0)
        | none => none
    else some (parseDigits decDigitVal 10 ('0' :: x :: rest) 0)
  | c :: rest =>
    match decDigitVal c with
    | some _ => some (parseDigits decDigitVal 10 (c :: rest) 0)
    | none => none
  | [] => none

/-- JS `parseInt(s)` (no explicit radix); `none` models `NaN`. -/
def jsParseInt (s : String) : Option Int :=
  match s.data.dropWhile Char.isWhitespace with
  | '-' :: rest => (jsParseIntUnsigned rest).map (fun n => -(n : Int))
  | '+' :: rest => (jsParseIntUnsigned rest).map (fun n => (n : Int))
  | l => (jsParseIntUnsigned l).map (fun n => (n : Int))

/-! ### Stable descending sort

Model of `chunks.sort((a, b) => b.score - a.score)`: JS `Array.prototype.sort`
is stable, and this comparator orders by `score` descending, so the model is a
stable insertion sort placing an element before the first existing element
whose score is less than or equal to its own. -/

/-- Insert a chunk into a score-descending list, before the first element with
a less-or-equal score (so earlier-inserted ties stay first). -/
def insertByScoreDesc (c : Chunk) : List Chunk → List Chunk
  | [] => [c]
  | d :: rest =>
    if d.score ≤ c.score then c :: d :: rest
    else d :: insertByScoreDesc c rest

/-- Stable sort by `score` descending; model of
`arr.sort((a, b) => b.score - a.score)`. -/
def sortByScoreDesc : List Chunk → List Chunk
  | [] => []
  | c :: rest => insertByScoreDesc c (sortByScoreDesc rest)

/-! ### Translations of the functions of `src/rag.ts` -/

/-- `generateQueryEmbedding`: delegates to the embedding provider
(model `text-embedding-3-large`, 1024 dimensions); a provider error
propagates. -/
def generateQueryEmbedding (env : Env) (query : String) : Except String (List ℚ) :=
  env.embeddings query

/-- Normalization done inside `retrieveChunks`:
`{ text: match.metadata?.text || '', metadata: match.metadata || {}, score: match.score || 0 }`. -/
def matchToChunk (m : IndexMatch) : Chunk :=
  { text := (m.metadata.bind (fun md => md.text)).getD ""
    metadata := m.metadata.getD {}
    score := m.score.getD 0 }

/-- `retrieveChunks`: query the vector index with `topK` capped at 20 and
normalize the matches. -/
def retrieveChunks (env : Env) (queryEmbedding : List ℚ) (topK : Nat := 10) :
    Except String (List Chunk) := do
  let queryResponse ← env.query queryEmbedding (min topK 20)
  pure (queryResponse.map matchToChunk)

/-- The `rerankPrompt` string built by `rerankChunks`. -/
def rerankPromptText (query : String) (chunks : List Chunk) : String :=
  let chunksText := jsJoin "\n\n" (chunks.enum.map
    (fun p => "[" ++ toString p.1 ++ "] " ++ jsSubstring p.2.text 300))
  "Given the user\x27s question and a list of information chunks, rank the chunks by relevance (1 = most relevant, "
    ++ toString chunks.length
    ++ " = least relevant).\n\nUser question: "
    ++ query
    ++ "\n\nChunks:\n"
    ++ chunksText
    ++ "\n\nReturn only a comma-separated list of chunk indices in order of relevance (e.g., \"2,0,1,3\"):"

/-- The chat-completion request issued by `rerankChunks`. -/
def rerankRequest (query : String) (chunks : List Chunk) : ChatRequest :=
  { model := "gpt-4o"
    messages :=
      [ { role := "system"
          content := "You are a relevance ranking expert. Rank information chunks by how well they answer the user question." }
      , { role := "user", content := rerankPromptText query chunks } ]
    temperature := mkRat 3 10
    maxTokens := 100 }

/-- Parsing of the re-rank reply:
`ranked.split(',').map(s => parseInt(s.trim())).filter(n => !isNaN(n) && n >= 0 && n < chunks.length)`. -/
def parseRankedIndices (ranked : String) (len : Nat) : List Nat :=
  ((jsSplitChar ',' ranked).map (fun s => jsParseInt (jsTrim s))).filterMap
    (fun o =>
      match o with
      | some n => if 0 ≤ n ∧ n < (len : Int) then some n.toNat else none
      | none => none)

/-- `rerankChunks`: ask the generation provider for a comma-separated index
order; on at least one valid index, map the indices over the chunk list; on a
provider error or no valid index, fall back to sorting by score descending;
lists of at most 3 chunks are returned unchanged. -/
def rerankChunks (env : Env) (query : String) (chunks : List Chunk) : List Chunk :=
  if chunks.length ≤ 3 then chunks
  else
    match env.chat (rerankRequest query chunks) with
    | .ok content =>
      let indices := parseRankedIndices content chunks.length
      if 0 < indices.length then indices.map (fun idx => chunks.getD idx default)
      else sortByScoreDesc chunks
    | .error _ => sortByScoreDesc chunks

/-- The `[Source: sheet, Row row]` tag of `buildRAGPrompt` (JS truthiness:
an absent or empty sheet yields no tag, a `row` of `0` is suppressed). -/
def chunkSourceTag (chunk : Chunk) : String :=
  match chunk.metadata.sheet with
  | some sheet =>
    if sheet = "" then ""
    else
      "[Source: " ++ sheet ++
        (match chunk.metadata.row with
         | some row => if row = 0 then "" else ", Row " ++ toString row
         | none => "") ++ "]"
  | none => ""

/-- `buildRAGPrompt`: numbered context section, optional previous-conversation
section from the last 6 turns, and the current question. -/
def buildRAGPrompt (query : String) (chunks : List Chunk)
    (conversationHistory : List Turn := []) : String :=
  let contextText := jsJoin "\n\n" (chunks.enum.map
    (fun p => toString (p.1 + 1) ++ ". " ++ chunkSourceTag p.2 ++ " " ++ p.2.text))
  let conversationContext :=
    if 0 < conversationHistory.length then
      "\n\nPrevious conversation:\n"
        ++ jsJoin "\n" ((jsSliceLast 6 conversationHistory).map
            (fun msg => (if msg.role = "user" then "User" else "Assistant") ++ ": " ++ msg.content))
        ++ "\n\nNote: When the user asks follow-up questions (like \"tell me the category\", \"what about the price\", etc.), they are referring to the topic discussed in the previous conversation. Use the conversation history to understand what they are asking about."
    else ""
  "You are Nick, an expert AI assistant specializing in product information. Your goal is to provide 100% accurate answers based on the provided context.\n\nCRITICAL INSTRUCTIONS:\n1. ANSWER ACCURACY: Only use information that is explicitly stated in the Knowledge Base Context below. Do not make assumptions or infer information not present.\n2. CONVERSATION CONTEXT: If the user asks follow-up questions (like \"what\x27s the category?\", \"tell me the price\", \"what about features?\", etc.), they are referring to the product/topic from the previous conversation. Use the conversation history to understand what they\x27re asking about.\n3. COMPLETE ANSWERS: Provide complete, detailed answers. If multiple pieces of information are relevant, include all of them.\n4. PRODUCT-SPECIFIC: When answering about products, include all relevant details: name, category, price, features, specifications, etc. from the context.\n5. UNCERTAINTY: If the exact information is not in the context, say \"Based on the available information, [partial answer]. However, [specific detail] is not available in my knowledge base.\"\n6. FORMAT: Be friendly, professional, and comprehensive. Structure your answer clearly.\n\nKnowledge Base Context:\n"
    ++ contextText
    ++ conversationContext
    ++ "\n\nCurrent User Question:\n"
    ++ query
    ++ "\n\nProvide a complete, accurate answer based ONLY on the Knowledge Base Context above:"

/-- The system message of `generateAnswer`. -/
def answerSystemContent : String :=
  "You are Nick, an expert AI assistant with 100% accuracy requirements. Your responses must be:\n1. FACTUALLY ACCURATE - Only use information from the provided context\n2. COMPREHENSIVE - Include all relevant details from the context\n3. CONTEXT-AWARE - Use conversation history to understand follow-up questions\n4. PRODUCT-FOCUSED - When discussing products, include all available details (name, category, price, features, specifications, etc.)\n5. CLEAR AND STRUCTURED - Organize information logically\n\nWhen users ask follow-up questions, use the conversation history to understand what product or topic they\x27re referring to. Always provide complete, accurate answers based on the context provided."

/-- The chat-completion request issued by `generateAnswer`: system persona,
last 8 history turns filtered to user/assistant roles, then the prompt. -/
def answerRequest (prompt : String) (conversationHistory : List Turn) : ChatRequest :=
  { model := "gpt-4o"
    messages :=
      [ { role := "system", content := answerSystemContent } ]
        ++ ((jsSliceLast 8 conversationHistory).filter
              (fun msg => msg.role == "user" || msg.role == "assistant")).map
            (fun msg => { role := msg.role, content := msg.content })
        ++ [ { role := "user", content := prompt } ]
    temperature := mkRat 3 10
    maxTokens := 500 }

/-- `generateAnswer`: delegates to the generation provider; empty content is
replaced by a fixed placeholder; a provider error propagates. -/
def generateAnswer (env : Env) (prompt : String)
    (conversationHistory : List Turn := []) : Except String String := do
  let content ← env.chat (answerRequest prompt conversationHistory)
  pure (if content = "" then "Unable to generate answer." else content)

/-- The greeting term set of `isGreetingOrConversational`. -/
def greetingTerms : List String :=
  ["hello", "hi", "hey", "greetings", "good morning", "good afternoon",
   "good evening", "good night", "howdy", "what\x27s up", "sup", "yo",
   "how are you", "how do you do", "nice to meet you"]

/-- The conversational term set of `isGreetingOrConversational`. -/
def conversationalTerms : List String :=
  ["thank you", "thanks", "bye", "goodbye", "see you", "talk to you",
   "what can you do", "help", "who are you", "what are you"]

/-- `isGreetingOrConversational`: substring match against the two term sets,
or a short (length below 10) query of letters and whitespace only
(the regex `^[a-z\s]+$` on the lowercased, trimmed query). -/
def isGreetingOrConversational (query : String) : Bool :=
  let lowerQuery := jsTrim (jsToLowerCase query)
  greetingTerms.any (fun greeting => jsIncludes lowerQuery greeting)
    || conversationalTerms.any (fun phrase => jsIncludes lowerQuery phrase)
    || (decide (lowerQuery.length < 10)
        && !lowerQuery.data.isEmpty
        && lowerQuery.data.all
            (fun c => (decide ('a' ≤ c) && decide (c ≤ 'z')) || c.isWhitespace))

/-- `handleConversationalQuery`: the canned responses, keyed by which phrase
the lowercased trimmed query contains, in source order. -/
def handleConversationalQuery (query : String) : String :=
  let lowerQuery := jsTrim (jsToLowerCase query)
  if jsIncludes lowerQuery "hello" || jsIncludes lowerQuery "hi" || jsIncludes lowerQuery "hey" then
    "Hello! I\x27m Nick, your AI assistant. I\x27m here to help you with questions about our products and services. What would you like to know?"
  else if jsIncludes lowerQuery "thank" then
    "You\x27re welcome! Is there anything else I can help you with?"
  else if jsIncludes lowerQuery "bye" || jsIncludes lowerQuery "goodbye" then
    "Goodbye! Feel free to come back if you have any questions. Have a great day!"
  else if jsIncludes lowerQuery "how are you" then
    "I\x27m doing great, thank you for asking! I\x27m here and ready to help you with any questions about our products. What can I assist you with today?"
  else if jsIncludes lowerQuery "what can you do" || jsIncludes lowerQuery "help" then
    "I can help you find information about our products and services. Just ask me questions like \x27What products do you have?\x27, \x27Tell me about product X\x27, or any other questions about our offerings. What would you like to know?"
  else if jsIncludes lowerQuery "who are you" || jsIncludes lowerQuery "what are you" then
    "I\x27m Nick, your AI assistant powered by advanced AI technology. I can help you find information about our products and answer questions using our knowledge base. How can I assist you today?"
  else
    "I\x27m here to help! Feel free to ask me any questions about our products or services. What would you like to know?"

/-- The expansion prompt built by `expandQuery` (context summary from the last
4 turns when history is non-empty). -/
def expansionPromptText (query : String) (conversationHistory : List Turn) : String :=
  let contextSummary :=
    if 0 < conversationHistory.length then
      "Previous conversation context: "
        ++ jsJoin " | " ((jsSliceLast 4 conversationHistory).map
            (fun msg => msg.role ++ ": " ++ msg.content))
    else ""
  "Given the user\x27s question and conversation context, generate 3-5 alternative phrasings and expanded queries that would help find relevant information in a product database. Include:\n1. The original query\n2. Synonyms and related terms\n3. Product-specific variations\n4. Context-aware expansions if there\x27s conversation history\n\nUser question: "
    ++ query
    ++ "\n"
    ++ contextSummary
    ++ "\n\nReturn only the expanded queries, one per line, without numbering or bullets:"

/-- The chat-completion request issued by `expandQuery`. -/
def expansionRequest (query : String) (conversationHistory : List Turn) : ChatRequest :=
  { model := "gpt-4o"
    messages :=
      [ { role := "system"
          content := "You are a query expansion expert. Generate alternative phrasings of user queries to improve information retrieval." }
      , { role := "user", content := expansionPromptText query conversationHistory } ]
    temperature := mkRat 7 10
    maxTokens := 200 }

/-- `expandQuery`: split the reply on line breaks, trim, drop empty lines, cap
at 5, prepend the original query dropping lines equal to it, cap at 5 again;
any provider error degrades to the singleton list of the original query. -/
def expandQuery (env : Env) (query : String) (conversationHistory : List Turn) : List String :=
  match env.chat (expansionRequest query conversationHistory) with
  | .ok content =>
    let expanded := if content = "" then query else content
    let queries := (((jsSplitChar '\n' expanded).map jsTrim).filter
      (fun q => decide (0 < q.length))).take 5
    (query :: queries.filter (fun q => q != query)).take 5
  | .error _ => [query]

/-- `extractContextFromHistory`: last 6 turns, user contents joined with
spaces, assistant contents joined with spaces, both joined with a space
(dropping empty halves); empty string on empty history. -/
def extractContextFromHistory (conversationHistory : List Turn) : String :=
  if conversationHistory.length = 0 then ""
  else
    let recentMessages := jsSliceLast 6 conversationHistory
    let userMessages := jsJoin " "
      ((recentMessages.filter (fun msg => msg.role == "user")).map (fun msg => msg.content))
    let assistantMessages := jsJoin " "
      ((recentMessages.filter (fun msg => msg.role == "assistant")).map (fun msg => msg.content))
    jsJoin " " (([userMessages, assistantMessages]).filter (fun s => decide (0 < s.length)))

/-- The follow-up marker vocabulary of `isFollowUpQuestion`. -/
def followUpTerms : List String :=
  ["tell me", "what about", "what is", "what are", "how much", "how many",
   "what\x27s the", "what are the", "give me", "show me", "can you tell",
   "category", "price", "cost", "description", "details", "specification",
   "features", "benefits", "about it", "about that", "more about",
   "the same", "that product", "this product", "it", "they", "them"]

/-- `isFollowUpQuestion`: substring match of the lowercased query against the
follow-up vocabulary. -/
def isFollowUpQuestion (query : String) : Bool :=
  let lowerQuery := jsToLowerCase query
  followUpTerms.any (fun pat => jsIncludes lowerQuery pat)

/-! ### The orchestrator `runRAG`, split into its named stages -/

/-- The dedup key of a chunk: `chunk.text.substring(0, 100)`. -/
def dedupKeyOf (chunk : Chunk) : String :=
  jsSubstring chunk.text 100

/-- The retrieval accumulator: the `allChunks` array plus the `seenTexts`
key set (order of the key set is irrelevant, only membership is used). -/
structure AccState where
  allChunks : List Chunk
  seenTexts : List String
deriving DecidableEq

/-- The body of the `for (const chunk of chunks)` merge loop: drop the chunk
when its key was seen, otherwise append it and record the key. -/
def addChunk (st : AccState) (chunk : Chunk) : AccState :=
  let chunkKey := dedupKeyOf chunk
  if chunkKey ∈ st.seenTexts then st
  else { allChunks := st.allChunks ++ [chunk], seenTexts := chunkKey :: st.seenTexts }

/-- Merge one retrieval pass into the accumulator. -/
def addChunks (st : AccState) (chunks : List Chunk) : AccState :=
  chunks.foldl addChunk st

/-- One embed-and-search attempt: `generateQueryEmbedding` then
`retrieveChunks`; either provider error propagates to the caller. -/
def tryRetrievePass (env : Env) (q : String) (topK : Nat) : Except String (List Chunk) := do
  let embedding ← generateQueryEmbedding env q
  retrieveChunks env embedding topK

/-- Strategy 1 of `runRAG`: one embed+search (topK 10) per expanded query,
merging into the accumulator; a failure of an individual pass is caught and
that pass is skipped. -/
def strategyOne (env : Env) (queries : List String) (st : AccState) : AccState :=
  queries.foldl
    (fun st expandedQuery =>
      match tryRetrievePass env expandedQuery 10 with
      | .ok chunks => addChunks st chunks
      | .error _ => st)
    st

/-- Strategy 2 of `runRAG`: when the query is a follow-up, the history context
is non-empty (JS truthiness) and fewer than 5 chunks are accumulated, one
extra embed+search on `contextFromHistory + " " + query`, merged under the
same dedup rule; its failure is caught and skipped. -/
def strategyTwo (env : Env) (isFollowUp : Bool) (contextFromHistory query : String)
    (st : AccState) : AccState :=
  if isFollowUp = true ∧ contextFromHistory ≠ "" ∧ st.allChunks.length < 5 then
    match tryRetrievePass env (contextFromHistory ++ " " ++ query) 10 with
    | .ok chunks => addChunks st chunks
    | .error _ => st
  else st

/-- Step 4 of `runRAG`: filter at the follow-up-dependent threshold; if fewer
than 3 chunks survive and the accumulator is non-empty, take the top 10 of
the accumulator by score descending instead. -/
def selectRelevantChunks (isFollowUp : Bool) (allChunks : List Chunk) : List Chunk :=
  let scoreThreshold : ℚ := if isFollowUp then mkRat 25 100 else mkRat 4 10
  let relevantChunks := allChunks.filter (fun chunk => decide (scoreThreshold < chunk.score))
  if relevantChunks.length < 3 ∧ 0 < allChunks.length then
    (sortByScoreDesc allChunks).take 10
  else relevantChunks

/-- Step 5 of `runRAG`: LLM re-ranking when more than 3 chunks remain,
otherwise sorting by score descending. -/
def rerankStage (env : Env) (query : String) (relevantChunks : List Chunk) : List Chunk :=
  if 3 < relevantChunks.length then rerankChunks env query relevantChunks
  else sortByScoreDesc relevantChunks

/-- Steps 1-3 of `runRAG`: query expansion, history context extraction and
both retrieval strategies, producing the accumulator. -/
def accumulatedState (env : Env) (query : String) (conversationHistory : List Turn) : AccState :=
  let expandedQueries := expandQuery env query conversationHistory
  let contextFromHistory := extractContextFromHistory conversationHistory
  let isFollowUp := isFollowUpQuestion query
  strategyTwo env isFollowUp contextFromHistory query
    (strategyOne env (expandedQueries.take 3) { allChunks := [], seenTexts := [] })

/-- Steps 4-5 of `runRAG`: the ranked chunk sequence. -/
def rankedChunks (env : Env) (query : String) (conversationHistory : List Turn) : List Chunk :=
  rerankStage env query
    (selectRelevantChunks (isFollowUpQuestion query)
      (accumulatedState env query conversationHistory).allChunks)

/-- Step 6 of `runRAG`: the final context, the top 8 of the ranked sequence. -/
def finalContext (env : Env) (query : String) (conversationHistory : List Turn) : List Chunk :=
  (rankedChunks env query conversationHistory).take 8

/-- Source extraction: sheet with `Unknown` fallback (JS truthiness), the raw
row, and the text truncated to 200 characters with an ellipsis marker. -/
def chunkToSource (chunk : Chunk) : Source :=
  { sheet := jsOrElse chunk.metadata.sheet "Unknown"
    row := chunk.metadata.row
    text := jsSubstring chunk.text 200 ++ (if 200 < chunk.text.length then "..." else "") }

/-- The fixed apology returned when no context can be found. -/
def apologyAnswer : String :=
  "I couldn\x27t find specific information about that in my knowledge base. Could you please provide more details or rephrase your question? I\x27m here to help with questions about our products and services."

/-- The body of the last-resort `try` block of `runRAG`: embed the original
query, search with topK 15, filter at score above 0.2, sort descending, take
5; on any chunks, build the prompt and generate, returning answer and
sources; otherwise `none`.  Provider errors propagate out of this body. -/
def lastResortTry (env : Env) (query : String) (conversationHistory : List Turn) :
    Except String (Option RAGResult) := do
  let originalEmbedding ← generateQueryEmbedding env query
  let originalChunks ← retrieveChunks env originalEmbedding 15
  let lowThresholdChunks :=
    (sortByScoreDesc (originalChunks.filter
      (fun chunk => decide (mkRat 2 10 < chunk.score)))).take 5
  if 0 < lowThresholdChunks.length then do
    let prompt := buildRAGPrompt query lowThresholdChunks conversationHistory
    let answer ← generateAnswer env prompt conversationHistory
    pure (some { answer := answer, sources := some (lowThresholdChunks.map chunkToSource) })
  else
    pure none

/-- The last-resort pass as `runRAG` runs it: its `catch` only logs, so any
error of the body is swallowed and the pass yields `none`. -/
def lastResortPass (env : Env) (query : String) (conversationHistory : List Turn) :
    Option RAGResult :=
  match lastResortTry env query conversationHistory with
  | .ok r => r
  | .error _ => none

/-- The `try` body of `runRAG`: conversational short-circuit, the staged
pipeline, the last-resort fallback, and answer generation. -/
def runRAGInner (env : Env) (query : String) (conversationHistory : List Turn) :
    Except String RAGResult :=
  if conversationHistory.length = 0 ∧ isGreetingOrConversational query = true then
    .ok { answer := handleConversationalQuery query, sources := none }
  else
    let finalChunks := finalContext env query conversationHistory
    if finalChunks.length = 0 then
      match lastResortPass env query conversationHistory with
      | some result => .ok result
      | none => .ok { answer := apologyAnswer, sources := none }
    else
      match generateAnswer env (buildRAGPrompt query finalChunks conversationHistory)
          conversationHistory with
      | .ok answer => .ok { answer := answer, sources := some (finalChunks.map chunkToSource) }
      | .error e => .error e

/-- `runRAG`: the exported entry point; any error of the body is caught and
re-raised wrapped as a single pipeline-failure error. -/
def runRAG (env : Env) (query : String) (conversationHistory : List Turn := []) :
    Except String RAGResult :=
  match runRAGInner env query conversationHistory with
  | .ok r => .ok r
  | .error e => .error ("RAG processing failed: " ++ e)

/-! ### Concrete environments and data for witnesses and counterexamples -/

/-- An environment in which every provider call fails. -/
def envAllFail : Env :=
  { embeddings := fun _ => .error "boom"
    query := fun _ _ => .error "boom"
    chat := fun _ => .error "boom" }

/-- An environment whose generation provider replies with two identical
expansion lines. -/
def envDupLines : Env :=
  { embeddings := fun _ => .error "down"
    query := fun _ _ => .error "down"
    chat := fun _ => .ok "a\na" }

/-- An environment whose generation provider replies with the index list
`1,1,2` (a repeated valid index). -/
def envRepeatIndex : Env :=
  { embeddings := fun _ => .error "down"
    query := fun _ _ => .error "down"
    chat := fun _ => .ok "1,1,2" }

/-- A stored match used by concrete runs. -/
def matchWidget : IndexMatch :=
  { metadata := some { text := some "Widget A costs 19.99", sheet := some "Products", row := some 2 }
    score := some (mkRat 9 10) }

/-- An environment that retrieves one good chunk but whose answer-generation
call (the chat request with max_tokens 500) fails; the expansion and re-rank
calls succeed with empty content. -/
def envGenFail : Env :=
  { embeddings := fun _ => .ok [1]
    query := fun _ _ => .ok [matchWidget]
    chat := fun req => if req.maxTokens = 500 then .error "gen fail" else .ok "" }

/-- An environment that retrieves one good chunk; its generation provider is
down. -/
def envRetrieveOne : Env :=
  { embeddings := fun _ => .ok [1]
    query := fun _ _ => .ok [matchWidget]
    chat := fun _ => .error "down" }

/-- Sample chunks for concrete sort and re-rank runs. -/
def chunkA : Chunk := { text := "alpha", metadata := {}, score := mkRat 3 10 }

def chunkB : Chunk := { text := "beta", metadata := {}, score := mkRat 1 2 }

def chunkC : Chunk := { text := "gamma", metadata := {}, score := mkRat 35 100 }

def chunkD : Chunk := { text := "delta", metadata := {}, score := mkRat 3 10 }

/-- Two distinct chunks sharing the dedup key `alpha`, plus one with a
different key. -/
def chunkAlpha1 : Chunk := { text := "alpha", metadata := { text := some "alpha" }, score := mkRat 1 2 }

def chunkBeta : Chunk := { text := "beta", metadata := { text := some "beta" }, score := mkRat 2 5 }

def chunkAlpha2 : Chunk := { text := "alpha", metadata := { text := some "alpha" }, score := mkRat 3 10 }

/-! ### Properties of the stable descending sort -/

theorem insertByScoreDesc_perm (c : Chunk) (l : List Chunk) :
    List.Perm (insertByScoreDesc c l) (c :: l) := by
  induction l with
  | nil => rfl
  | cons d rest ih =>
    rw [insertByScoreDesc]
    split
    · rfl
    · exact (ih.cons d).trans (List.Perm.swap c d rest)

theorem sortByScoreDesc_perm (l : List Chunk) : List.Perm (sortByScoreDesc l) l := by
  induction l with
  | nil => rfl
  | cons c rest ih =>
    exact (insertByScoreDesc_perm c _).trans (ih.cons c)

theorem insertByScoreDesc_sorted (c : Chunk) (l : List Chunk)
    (h : l.Pairwise (fun a b => b.score ≤ a.score)) :
    (insertByScoreDesc c l).Pairwise (fun a b => b.score ≤ a.score) := by
  induction l with
  | nil => simp [insertByScoreDesc]
  | cons d rest ih =>
    rw [insertByScoreDesc]
    rcases List.pairwise_cons.mp h with ⟨hd, hrest⟩
    split
    · rename_i hdc
      refine List.Pairwise.cons ?_ h
      intro x hx
      rcases List.mem_cons.mp hx with rfl | hx
      · exact hdc
      · exact le_trans (hd x hx) hdc
    · rename_i hdc
      refine List.Pairwise.cons ?_ (ih hrest)
      intro x hx
      rcases List.mem_cons.mp ((insertByScoreDesc_perm c rest).mem_iff.mp hx) with rfl | hx
      · exact le_of_lt (lt_of_not_le hdc)
      · exact hd x hx

theorem sortByScoreDesc_sorted (l : List Chunk) :
    (sortByScoreDesc l).Pairwise (fun a b => b.score ≤ a.score) := by
  induction l with
  | nil => exact List.Pairwise.nil
  | cons c rest ih => exact insertByScoreDesc_sorted c _ ih

theorem insertByScoreDesc_filter_eq (c : Chunk) (l : List Chunk) (s : ℚ) (hc : c.score = s) :
    (insertByScoreDesc c l).filter (fun x => x.score == s) =
      c :: l.filter (fun x => x.score == s) := by
  induction l with
  | nil => simp [insertByScoreDesc, List.filter_cons, hc]
  | cons d rest ih =>
    rw [insertByScoreDesc]
    split
    · simp [List.filter_cons, hc]
    · rename_i hdc
      have hd : ¬ d.score = s := by
        intro he
        exact hdc (le_of_eq (he.trans hc.symm))
      simp [List.filter_cons, beq_iff_eq, hd, ih]

theorem insertByScoreDesc_filter_ne (c : Chunk) (l : List Chunk) (s : ℚ) (hc : ¬ c.score = s) :
    (insertByScoreDesc c l).filter (fun x => x.score == s) =
      l.filter (fun x => x.score == s) := by
  induction l with
  | nil => simp [insertByScoreDesc, List.filter_cons, hc]
  | cons d rest ih =>
    rw [insertByScoreDesc]
    split
    · simp [List.filter_cons, hc]
    · simp only [List.filter_cons, ih]

/-- Stability of the sort: for every score value, the subsequence of chunks
carrying that score is unchanged, so ties keep their original relative
order. -/
theorem sortByScoreDesc_stable (l : List Chunk) (s : ℚ) :
    (sortByScoreDesc l).filter (fun x => x.score == s) =
      l.filter (fun x => x.score == s) := by
  induction l with
  | nil => rfl
  | cons c rest ih =>
    by_cases hc : c.score = s
    · rw [sortByScoreDesc, insertByScoreDesc_filter_eq c _ s hc, ih, List.filter_cons]
      simp [hc]
    · rw [sortByScoreDesc, insertByScoreDesc_filter_ne c _ s hc, ih, List.filter_cons]
      simp [hc]

/-! ### Properties of the dedup accumulator -/

/-- The accumulator keys are consistent: a key is in `seenTexts` exactly when
some accumulated chunk carries it. -/
def AccInv (st : AccState) : Prop :=
  ∀ k, k ∈ st.seenTexts ↔ ∃ c ∈ st.allChunks, dedupKeyOf c = k

/-- All accumulated chunks have pairwise distinct dedup keys. -/
def KeysDistinct (l : List Chunk) : Prop :=
  l.Pairwise (fun a b => dedupKeyOf a ≠ dedupKeyOf b)

theorem accInv_empty : AccInv { allChunks := [], seenTexts := [] } := by
  intro k
  simp

theorem addChunk_cases (st : AccState) (c : Chunk) :
    (dedupKeyOf c ∈ st.seenTexts ∧ addChunk st c = st) ∨
      (dedupKeyOf c ∉ st.seenTexts ∧
        addChunk st c =
          { allChunks := st.allChunks ++ [c], seenTexts := dedupKeyOf c :: st.seenTexts }) := by
  by_cases h : dedupKeyOf c ∈ st.seenTexts
  · exact Or.inl ⟨h, by simp [addChunk, h]⟩
  · exact Or.inr ⟨h, by simp [addChunk, h]⟩

theorem addChunks_cons (st : AccState) (c : Chunk) (rest : List Chunk) :
    addChunks st (c :: rest) = addChunks (addChunk st c) rest := rfl

theorem addChunks_append (st : AccState) (l₁ l₂ : List Chunk) :
    addChunks st (l₁ ++ l₂) = addChunks (addChunks st l₁) l₂ :=
  List.foldl_append _ _ _ _

theorem accInv_addChunk (st : AccState) (c : Chunk) (h : AccInv st) :
    AccInv (addChunk st c) := by
  rcases addChunk_cases st c with ⟨_, heq⟩ | ⟨hnot, heq⟩
  · rw [heq]; exact h
  · rw [heq]
    intro k
    constructor
    · intro hk
      rcases List.mem_cons.mp hk with rfl | hk
      · exact ⟨c, by simp, rfl⟩
      · obtain ⟨c', hc', hkey⟩ := (h k).mp hk
        exact ⟨c', by simp [hc'], hkey⟩
    · rintro ⟨c', hc', hkey⟩
      rcases List.mem_append.mp hc' with hc' | hc'
      · exact List.mem_cons_of_mem _ ((h k).mpr ⟨c', hc', hkey⟩)
      · simp only [List.mem_singleton] at hc'
        subst hc'
        subst hkey
        exact List.mem_cons_self _ _

theorem accInv_addChunks (l : List Chunk) (st : AccState) (h : AccInv st) :
    AccInv (addChunks st l) := by
  induction l generalizing st with
  | nil => exact h
  | cons c rest ih => exact ih _ (accInv_addChunk st c h)

theorem addChunks_allChunks_extend (l : List Chunk) (st : AccState) :
    ∃ ext, (addChunks st l).allChunks = st.allChunks ++ ext := by
  induction l generalizing st with
  | nil => exact ⟨[], (List.append_nil _).symm⟩
  | cons c rest ih =>
    rw [addChunks_cons]
    rcases addChunk_cases st c with ⟨_, heq⟩ | ⟨_, heq⟩
    · rw [heq]
      exact ih st
    · rw [heq]
      obtain ⟨ext, hext⟩ :=
        ih { allChunks := st.allChunks ++ [c], seenTexts := dedupKeyOf c :: st.seenTexts }
      refine ⟨c :: ext, hext.trans ?_⟩
      show (st.allChunks ++ [c]) ++ ext = st.allChunks ++ (c :: ext)
      rw [List.append_assoc]
      rfl

theorem mem_addChunks_of_mem (l : List Chunk) (st : AccState) (c : Chunk)
    (h : c ∈ st.allChunks) : c ∈ (addChunks st l).allChunks := by
  obtain ⟨ext, hext⟩ := addChunks_allChunks_extend l st
  rw [hext]
  exact List.mem_append_left _ h

theorem keysDistinct_addChunk (st : AccState) (c : Chunk) (hinv : AccInv st)
    (h : KeysDistinct st.allChunks) : KeysDistinct (addChunk st c).allChunks := by
  rcases addChunk_cases st c with ⟨_, heq⟩ | ⟨hnot, heq⟩
  · rw [heq]; exact h
  · rw [heq]
    refine List.pairwise_append.mpr ⟨h, List.pairwise_singleton _ _, ?_⟩
    intro a ha b hb
    simp only [List.mem_singleton] at hb
    subst hb
    intro hkey
    exact hnot ((hinv _).mpr ⟨a, ha, hkey⟩)

theorem keysDistinct_addChunks (l : List Chunk) (st : AccState) (hinv : AccInv st)
    (h : KeysDistinct st.allChunks) : KeysDistinct (addChunks st l).allChunks := by
  induction l generalizing st with
  | nil => exact h
  | cons c rest ih =>
    exact ih _ (accInv_addChunk st c hinv) (keysDistinct_addChunk st c hinv h)

theorem addChunks_covers (l : List Chunk) (st : AccState) (hinv : AccInv st) :
    ∀ c ∈ l, ∃ c' ∈ (addChunks st l).allChunks, dedupKeyOf c' = dedupKeyOf c := by
  induction l generalizing st with
  | nil => simp
  | cons d rest ih =>
    intro c hc
    rcases List.mem_cons.mp hc with rfl | hc
    · rw [addChunks_cons]
      rcases addChunk_cases st c with ⟨hseen, heq⟩ | ⟨_, heq⟩
      · obtain ⟨c', hc', hkey⟩ := (hinv _).mp hseen
        refine ⟨c', mem_addChunks_of_mem _ _ _ ?_, hkey⟩
        rw [heq]
        exact hc'
      · refine ⟨c, mem_addChunks_of_mem _ _ _ ?_, rfl⟩
        rw [heq]
        simp
    · exact ih (addChunk st d) (accInv_addChunk st d hinv) c hc

theorem addChunks_first_wins (l : List Chunk) (st : AccState) :
    ∀ c' ∈ (addChunks st l).allChunks,
      c' ∈ st.allChunks ∨
        (dedupKeyOf c' ∉ st.seenTexts ∧
          l.find? (fun c => dedupKeyOf c == dedupKeyOf c') = some c') := by
  induction l generalizing st with
  | nil => exact fun c' h => Or.inl h
  | cons d rest ih =>
    intro c' h
    rw [addChunks_cons] at h
    have h' := ih (addChunk st d) c' h
    rcases addChunk_cases st d with ⟨hseen, heq⟩ | ⟨hnot, heq⟩
    · rw [heq] at h'
      rcases h' with hmem | ⟨hks, hfind⟩
      · exact Or.inl hmem
      · refine Or.inr ⟨hks, ?_⟩
        rw [List.find?_cons_of_neg, hfind]
        simp only [beq_iff_eq]
        intro hkey
        exact hks (hkey ▸ hseen)
    · rw [heq] at h'
      rcases h' with hmem | ⟨hks, hfind⟩
      · rcases List.mem_append.mp hmem with hmem | hmem
        · exact Or.inl hmem
        · simp only [List.mem_singleton] at hmem
          subst hmem
          refine Or.inr ⟨hnot, ?_⟩
          rw [List.find?_cons_of_pos]
          simp
      · have h1 : ¬ dedupKeyOf d = dedupKeyOf c' := by
          intro he
          exact hks (by rw [← he]; exact List.mem_cons_self _ _)
        refine Or.inr ⟨fun hs => hks (List.mem_cons_of_mem _ hs), ?_⟩
        rw [List.find?_cons_of_neg, hfind]
        simp only [beq_iff_eq]
        exact h1

theorem foldl_addChunks_flatten (passes : List (List Chunk)) (st : AccState) :
    passes.foldl addChunks st = addChunks st passes.flatten := by
  induction passes generalizing st with
  | nil => rfl
  | cons p ps ih =>
    rw [List.foldl_cons, List.flatten_cons, addChunks_append]
    exact ih _

theorem strategyOne_cons (env : Env) (q : String) (qs : List String) (st : AccState) :
    strategyOne env (q :: qs) st =
      strategyOne env qs
        (match tryRetrievePass env q 10 with
         | .ok chunks => addChunks st chunks
         | .error _ => st) := rfl

/-- Every run of retrieval strategy 1 is an instance of folding the dedup
merge over the per-pass chunk lists. -/
theorem strategyOne_is_fold (env : Env) (queries : List String) (st : AccState) :
    ∃ passes : List (List Chunk), strategyOne env queries st = passes.foldl addChunks st := by
  induction queries generalizing st with
  | nil => exact ⟨[], rfl⟩
  | cons q qs ih =>
    rw [strategyOne_cons]
    rcases htry : tryRetrievePass env q 10 with e | chunks
    · simp only [htry]
      exact ih st
    · simp only [htry]
      obtain ⟨passes, hp⟩ := ih (addChunks st chunks)
      exact ⟨chunks :: passes, by rw [List.foldl_cons]; exact hp⟩

/-- Every run of retrieval strategy 2 is an instance of folding the dedup
merge over the per-pass chunk lists. -/
theorem strategyTwo_is_fold (env : Env) (isFollowUp : Bool) (ctx q : String) (st : AccState) :
    ∃ passes : List (List Chunk),
      strategyTwo env isFollowUp ctx q st = passes.foldl addChunks st := by
  by_cases hcond : isFollowUp = true ∧ ctx ≠ "" ∧ st.allChunks.length < 5
  · rcases htry : tryRetrievePass env (ctx ++ " " ++ q) 10 with e | chunks
    · exact ⟨[], by simp [strategyTwo, hcond, htry]⟩
    · exact ⟨[chunks], by simp [strategyTwo, hcond, htry]⟩
  · exact ⟨[], by simp [strategyTwo, hcond]⟩

/-! ### Claim theorems -/

/-- Claim C2: for every query classified conversational by the intent
classifier when the caller-supplied history is empty, `runRAG` returns the
canned response with no `sources`; the result is the same for every
environment, so the embedding provider, the vector index and the generation
provider are never consulted. -/
theorem claim_c2 (env : Env) (q : String)
    (h : isGreetingOrConversational q = true) :
    runRAG env q [] = .ok { answer := handleConversationalQuery q, sources := none } := by
  simp [runRAG, runRAGInner, h]

/-- Witness for C2: the query `hello` is classified conversational, and even
in the environment where every provider call fails the canned greeting is
returned. -/
theorem claim_c2_witness :
    isGreetingOrConversational "hello" = true
    ∧ runRAG envAllFail "hello" [] =
        .ok { answer := handleConversationalQuery "hello", sources := none } :=
  ⟨by decide, claim_c2 envAllFail "hello" (by decide)⟩

/-- Claim C3: over any sequence of retrieval passes, the accumulator keeps
pairwise-distinct dedup keys, covers every surfaced key, and each accumulator
entry is exactly the first chunk of the concatenated stream carrying its key
(first occurrence wins, later duplicates are dropped); and the accumulation
actually performed by `runRAG` (strategy 1 over the expanded queries followed
by strategy 2) is an instance of this fold. -/
theorem claim_c3 :
    (∀ passes : List (List Chunk),
      KeysDistinct (passes.foldl addChunks { allChunks := [], seenTexts := [] }).allChunks
      ∧ (∀ c ∈ passes.flatten,
          ∃ c' ∈ (passes.foldl addChunks { allChunks := [], seenTexts := [] }).allChunks,
            dedupKeyOf c' = dedupKeyOf c)
      ∧ (∀ c' ∈ (passes.foldl addChunks { allChunks := [], seenTexts := [] }).allChunks,
          passes.flatten.find? (fun c => dedupKeyOf c == dedupKeyOf c') = some c'))
    ∧ (∀ (env : Env) (q : String) (hist : List Turn),
        ∃ passes : List (List Chunk),
          accumulatedState env q hist =
            passes.foldl addChunks { allChunks := [], seenTexts := [] }) := by
  constructor
  · intro passes
    rw [foldl_addChunks_flatten]
    refine ⟨keysDistinct_addChunks _ _ accInv_empty List.Pairwise.nil,
      addChunks_covers _ _ accInv_empty, ?_⟩
    intro c' hc'
    rcases addChunks_first_wins _ _ c' hc' with hmem | ⟨_, hfind⟩
    · cases hmem
    · exact hfind
  · intro env q hist
    obtain ⟨p1, hp1⟩ := strategyOne_is_fold env ((expandQuery env q hist).take 3)
      { allChunks := [], seenTexts := [] }
    obtain ⟨p2, hp2⟩ := strategyTwo_is_fold env (isFollowUpQuestion q)
      (extractContextFromHistory hist) q
      (strategyOne env ((expandQuery env q hist).take 3) { allChunks := [], seenTexts := [] })
    refine ⟨p1 ++ p2, ?_⟩
    simp only [accumulatedState]
    rw [hp2, hp1, List.foldl_append]

/-- Witness for C3: a pass surfacing two chunks with the dedup key `alpha`
keeps only the first-seen one, and the first-wins property instantiates at
that chunk. -/
theorem claim_c3_witness :
    ([[chunkAlpha1, chunkBeta, chunkAlpha2]].foldl addChunks
        { allChunks := [], seenTexts := [] }).allChunks = [chunkAlpha1, chunkBeta]
    ∧ KeysDistinct ([[chunkAlpha1, chunkBeta, chunkAlpha2]].foldl addChunks
        { allChunks := [], seenTexts := [] }).allChunks
    ∧ ([[chunkAlpha1, chunkBeta, chunkAlpha2]] : List (List Chunk)).flatten.find?
        (fun c => dedupKeyOf c == dedupKeyOf chunkAlpha1) = some chunkAlpha1 := by
  have h := claim_c3.1 [[chunkAlpha1, chunkBeta, chunkAlpha2]]
  exact ⟨by decide, h.1, h.2.2 chunkAlpha1 (by decide)⟩

/-- Claim C4: relevance filtering keeps exactly the chunks with score
strictly above 0.25 (follow-up) or 0.4 (otherwise); when fewer than 3 survive
and the accumulator is non-empty, the result is exactly the top 10 of the
accumulator sorted by score descending, where the sort is a permutation,
descending in score, and stable (ties keep accumulation order). -/
theorem claim_c4 (isFollowUp : Bool) (allChunks : List Chunk) :
    (3 ≤ (allChunks.filter (fun chunk =>
          decide ((if isFollowUp then mkRat 25 100 else mkRat 4 10) < chunk.score))).length
        ∨ allChunks = [] →
      selectRelevantChunks isFollowUp allChunks =
        allChunks.filter (fun chunk =>
          decide ((if isFollowUp then mkRat 25 100 else mkRat 4 10) < chunk.score)))
    ∧ ((allChunks.filter (fun chunk =>
          decide ((if isFollowUp then mkRat 25 100 else mkRat 4 10) < chunk.score))).length < 3 →
        allChunks ≠ [] →
      selectRelevantChunks isFollowUp allChunks = (sortByScoreDesc allChunks).take 10)
    ∧ List.Perm (sortByScoreDesc allChunks) allChunks
    ∧ (sortByScoreDesc allChunks).Pairwise (fun a b => b.score ≤ a.score)
    ∧ (∀ s : ℚ, (sortByScoreDesc allChunks).filter (fun c => c.score == s) =
        allChunks.filter (fun c => c.score == s)) := by
  refine ⟨?_, ?_, sortByScoreDesc_perm _, sortByScoreDesc_sorted _,
    fun s => sortByScoreDesc_stable _ s⟩
  · intro h
    simp only [selectRelevantChunks]
    rw [if_neg]
    rintro ⟨hlt, hpos⟩
    rcases h with h3 | hnil
    · omega
    · rw [hnil] at hpos
      simp at hpos
  · intro hlt hne
    simp only [selectRelevantChunks]
    rw [if_pos ⟨hlt, List.length_pos.mpr hne⟩]

/-- Witness for C4: with no follow-up and scores 0.3, 0.5, 0.35, 0.3, only one
chunk clears 0.4, so the fallback returns the stable descending top 10 (the
two tied 0.3 chunks keep their accumulation order). -/
theorem claim_c4_witness :
    selectRelevantChunks false [chunkA, chunkB, chunkC, chunkD] =
      (sortByScoreDesc [chunkA, chunkB, chunkC, chunkD]).take 10
    ∧ (sortByScoreDesc [chunkA, chunkB, chunkC, chunkD]).take 10 =
        [chunkB, chunkC, chunkA, chunkD] :=
  ⟨(claim_c4 false [chunkA, chunkB, chunkC, chunkD]).2.1 (by decide) (by decide), by decide⟩

/-- Claim C5: if the generation provider errors during LLM re-ranking, or
parsing its reply yields no valid index, the re-ranked result is the input
sorted by raw score descending; and with 3 or fewer chunks the re-ranking
stage sorts by score descending identically for every environment (no
provider call). -/
theorem claim_c5 (env : Env) (query : String) (chunks : List Chunk) :
    (∀ e, env.chat (rerankRequest query chunks) = .error e → 3 < chunks.length →
      rerankChunks env query chunks = sortByScoreDesc chunks)
    ∧ (∀ reply, env.chat (rerankRequest query chunks) = .ok reply →
        parseRankedIndices reply chunks.length = [] → 3 < chunks.length →
      rerankChunks env query chunks = sortByScoreDesc chunks)
    ∧ (chunks.length ≤ 3 →
        ∀ env' : Env, rerankStage env' query chunks = sortByScoreDesc chunks) := by
  refine ⟨?_, ?_, ?_⟩
  · intro e he hlen
    simp only [rerankChunks]
    rw [if_neg (by omega)]
    simp only [he]
  · intro reply hr hparse hlen
    simp only [rerankChunks]
    rw [if_neg (by omega)]
    simp only [hr, hparse]
    simp
  · intro hlen env'
    simp only [rerankStage]
    rw [if_neg (by omega)]

/-- Witness for C5: with the generation provider down, four chunks are
re-ranked to raw-score descending order, and a two-chunk set skips re-ranking
in that same environment. -/
theorem claim_c5_witness :
    rerankChunks envAllFail "qq" [chunkA, chunkB, chunkC, chunkD] =
      sortByScoreDesc [chunkA, chunkB, chunkC, chunkD]
    ∧ rerankStage envAllFail "qq" [chunkA, chunkB] = sortByScoreDesc [chunkA, chunkB] :=
  ⟨(claim_c5 envAllFail "qq" [chunkA, chunkB, chunkC, chunkD]).1 "boom" rfl (by decide),
   (claim_c5 envAllFail "qq" [chunkA, chunkB]).2.2 (by decide) envAllFail⟩

/-- Claim C1 (amended): when the final context is empty and the query was not
short-circuited as conversational, `runRAG` returns the last-resort result
when the pass produced one and otherwise the fixed apology with no sources;
any error raised inside the last-resort pass (embedding, retrieval or
generation) is caught, making the pass yield `none`, so the apology — not a
wrapped error — is what the caller sees. -/
theorem claim_c1_amended (env : Env) (q : String) (hist : List Turn)
    (hempty : finalContext env q hist = [])
    (hconv : ¬(hist.length = 0 ∧ isGreetingOrConversational q = true)) :
    runRAG env q hist = .ok (match lastResortPass env q hist with
      | some r => r
      | none => { answer := apologyAnswer, sources := none })
    ∧ (∀ e, lastResortTry env q hist = .error e → lastResortPass env q hist = none) := by
  constructor
  · have hinner : runRAGInner env q hist = .ok (match lastResortPass env q hist with
        | some r => r
        | none => { answer := apologyAnswer, sources := none }) := by
      simp only [runRAGInner, if_neg hconv, hempty, List.length_nil, if_pos rfl]
      rcases hlr : lastResortPass env q hist with _ | r <;> simp [hlr]
    simp only [runRAG, hinner]
  · intro e he
    simp only [lastResortPass, he]

/-- Counterexample for C1 as stated: in the all-failing environment the final
context is empty, the last-resort pass raises an embedding error, and yet
`runRAG` returns the apology successfully instead of propagating a wrapped
error. -/
theorem claim_c1_counterexample :
    finalContext envAllFail "zzzzzzzzzzzz" [] = []
    ∧ lastResortTry envAllFail "zzzzzzzzzzzz" [] = .error "boom"
    ∧ runRAG envAllFail "zzzzzzzzzzzz" [] = .ok { answer := apologyAnswer, sources := none } :=
  ⟨rfl, rfl, rfl⟩

/-- Witness for C1 (amended): the amended behavior at a concrete input where
the last-resort pass fails. -/
theorem claim_c1_witness :
    runRAG envAllFail "zzzzzzzzzzzz" [] = .ok { answer := apologyAnswer, sources := none }
    ∧ lastResortPass envAllFail "zzzzzzzzzzzz" [] = none := by
  have h := claim_c1_amended envAllFail "zzzzzzzzzzzz" [] rfl (by decide)
  refine ⟨?_, h.2 "boom" rfl⟩
  have h1 := h.1
  rw [show lastResortPass envAllFail "zzzzzzzzzzzz" [] = none from rfl] at h1
  exact h1

/-- Helper for C6: prepending the query, filtering out its duplicates and
taking 5 yields at most 5 entries headed by the query, none of whose later
entries equals the query. -/
theorem expandShape_spec (q : String) (L : List String) :
    ((q :: L.filter (fun s => s != q)).take 5).length ≤ 5
    ∧ ((q :: L.filter (fun s => s != q)).take 5).head? = some q
    ∧ ∀ x ∈ ((q :: L.filter (fun s => s != q)).take 5).tail, x ≠ q := by
  refine ⟨List.length_take_le _ _, rfl, ?_⟩
  intro x hx
  rw [show ((q :: (L.filter (fun s => s != q))).take 5).tail
      = (L.filter (fun s => s != q)).take 4 from rfl] at hx
  have hx' := List.take_subset 4 _ hx
  have hb := (List.mem_filter.mp hx').2
  exact bne_iff_ne.mp hb

/-- Claim C6 (amended): query expansion returns at most 5 queries whose first
element is the original query, and the original query never recurs later in
the list (only duplicates of the original are removed — duplicates among the
provider's expansion lines are kept); on any provider error it returns
exactly the singleton of the original query. -/
theorem claim_c6_amended (env : Env) (q : String) (hist : List Turn) :
    (expandQuery env q hist).length ≤ 5
    ∧ (expandQuery env q hist).head? = some q
    ∧ (∀ x ∈ (expandQuery env q hist).tail, x ≠ q)
    ∧ (∀ e, env.chat (expansionRequest q hist) = .error e → expandQuery env q hist = [q]) := by
  rcases hch : env.chat (expansionRequest q hist) with e | content
  · have he : expandQuery env q hist = [q] := by simp [expandQuery, hch]
    refine ⟨by rw [he]; simp, by rw [he]; rfl, by rw [he]; simp, fun e' _ => he⟩
  · simp only [expandQuery, hch]
    refine ⟨(expandShape_spec q _).1, (expandShape_spec q _).2.1,
      (expandShape_spec q _).2.2, ?_⟩
    intro e' he'
    cases he'

/-- Counterexample for C6 as stated: a provider reply of two identical lines
produces a result with an exact duplicate, so exact duplicate strings are not
removed in general. -/
theorem claim_c6_counterexample :
    expandQuery envDupLines "zzz" [] = ["zzz", "a", "a"]
    ∧ ¬ (expandQuery envDupLines "zzz" []).Nodup :=
  ⟨rfl, by decide⟩

/-- Witness for C6 (amended): concrete head, length and provider-error
behavior. -/
theorem claim_c6_witness :
    (expandQuery envDupLines "zzz" []).head? = some "zzz"
    ∧ (expandQuery envDupLines "zzz" []).length ≤ 5
    ∧ expandQuery envAllFail "zzz" [] = ["zzz"] :=
  ⟨(claim_c6_amended envDupLines "zzz" []).2.1,
   (claim_c6_amended envDupLines "zzz" []).1,
   (claim_c6_amended envAllFail "zzz" []).2.2.2 "boom" rfl⟩

/-- Claim C7: the history-enhanced retrieval pass runs exactly when the query
is a follow-up, the extracted history context is non-empty, and fewer than 5
unique chunks are accumulated; when it runs it embeds and searches the
concatenation of history context, a space, and the query, merged by the same
dedup fold; otherwise the accumulator is returned untouched.  The last
conjunct ties this stage to the accumulation `runRAG` actually performs: its
input is the strategy-1 accumulator over the expanded queries. -/
theorem claim_c7 (env : Env) (isFollowUp : Bool) (ctx q : String) (st : AccState) :
    (¬(isFollowUp = true ∧ ctx ≠ "" ∧ st.allChunks.length < 5) →
      strategyTwo env isFollowUp ctx q st = st)
    ∧ ((isFollowUp = true ∧ ctx ≠ "" ∧ st.allChunks.length < 5) →
      strategyTwo env isFollowUp ctx q st =
        match tryRetrievePass env (ctx ++ " " ++ q) 10 with
        | .ok chunks => addChunks st chunks
        | .error _ => st)
    ∧ (∀ (q' : String) (hist : List Turn), accumulatedState env q' hist =
        strategyTwo env (isFollowUpQuestion q') (extractContextFromHistory hist) q'
          (strategyOne env ((expandQuery env q' hist).take 3)
            { allChunks := [], seenTexts := [] })) := by
  refine ⟨?_, ?_, fun q' hist => rfl⟩
  · intro h
    simp only [strategyTwo, if_neg h]
  · intro h
    simp only [strategyTwo, if_pos h]

/-- Witness for C7: a follow-up with non-empty context and an empty
accumulator triggers the pass, which merges the one retrieved chunk. -/
theorem claim_c7_witness :
    strategyTwo envRetrieveOne true "ctx" "qq" { allChunks := [], seenTexts := [] } =
      { allChunks := [matchToChunk matchWidget]
        seenTexts := [dedupKeyOf (matchToChunk matchWidget)] } := by
  have h := (claim_c7 envRetrieveOne true "ctx" "qq" { allChunks := [], seenTexts := [] }).2.1
    ⟨rfl, by decide, by decide⟩
  rw [h]
  decide

/-- Claim C8: the final context is by construction the top 8 of the ranked
sequence and never holds more than 8 chunks. -/
theorem claim_c8 (env : Env) (q : String) (hist : List Turn) :
    finalContext env q hist = (rankedChunks env q hist).take 8
    ∧ (finalContext env q hist).length ≤ 8 :=
  ⟨rfl, List.length_take_le 8 _⟩

/-- Claim C9: an error of the pipeline body is re-raised wrapped with the
pipeline-failure prefix, a successful body result passes through unchanged,
and every error `runRAG` raises arises this way — the wrap is the only
raising path. -/
theorem claim_c9 (env : Env) (q : String) (hist : List Turn) :
    (∀ e, runRAGInner env q hist = .error e →
      runRAG env q hist = .error ("RAG processing failed: " ++ e))
    ∧ (∀ r, runRAGInner env q hist = .ok r → runRAG env q hist = .ok r)
    ∧ (∀ e', runRAG env q hist = .error e' →
      ∃ e, runRAGInner env q hist = .error e ∧ e' = "RAG processing failed: " ++ e) := by
  refine ⟨?_, ?_, ?_⟩
  · intro e he
    simp [runRAG, he]
  · intro r hr
    simp [runRAG, hr]
  · intro e' he'
    rcases hinner : runRAGInner env q hist with e | r
    · simp only [runRAG, hinner] at he'
      exact ⟨e, rfl, (Except.error.injEq _ _ ▸ he').symm⟩
    · simp only [runRAG, hinner] at he'
      cases he'

/-- Witness for C9: a primary-path generation failure surfaces as the wrapped
pipeline error at a concrete input. -/
theorem claim_c9_witness :
    runRAGInner envGenFail "what is the price of widget a" [] = .error "gen fail"
    ∧ runRAG envGenFail "what is the price of widget a" [] =
        .error ("RAG processing failed: " ++ "gen fail") := by
  have h1 : runRAGInner envGenFail "what is the price of widget a" [] = .error "gen fail" := rfl
  exact ⟨h1, (claim_c9 envGenFail "what is the price of widget a" []).1 "gen fail" h1⟩

/-- Every parsed re-rank index is in range. -/
theorem parseRankedIndices_lt (reply : String) (len : Nat) :
    ∀ n ∈ parseRankedIndices reply len, n < len := by
  intro n hn
  simp only [parseRankedIndices, List.mem_filterMap] at hn
  obtain ⟨o, _, hmatch⟩ := hn
  rcases o with _ | m
  · cases hmatch
  · dsimp only at hmatch
    by_cases hcond : 0 ≤ m ∧ m < (len : Int)
    · rw [if_pos hcond] at hmatch
      obtain ⟨h1, h2⟩ := hcond
      cases hmatch
      omega
    · rw [if_neg hcond] at hmatch
      cases hmatch

/-- Claim C10: when re-ranking parses at least one valid index, the re-ranked
output is exactly the indexed selection from the filtered input, so every
output chunk is an element of the input (no chunk is fabricated); but the
index list need not be a permutation: equal indices at two positions place
the identical chunk at both corresponding output positions. -/
theorem claim_c10 (env : Env) (query : String) (chunks : List Chunk) (reply : String)
    (hok : env.chat (rerankRequest query chunks) = .ok reply)
    (hlen : 3 < chunks.length)
    (hne : parseRankedIndices reply chunks.length ≠ []) :
    rerankChunks env query chunks =
      (parseRankedIndices reply chunks.length).map (fun idx => chunks.getD idx default)
    ∧ (∀ c ∈ rerankChunks env query chunks, c ∈ chunks)
    ∧ (∀ i j : Nat, i < (parseRankedIndices reply chunks.length).length →
        j < (parseRankedIndices reply chunks.length).length →
        (parseRankedIndices reply chunks.length).getD i 0 =
          (parseRankedIndices reply chunks.length).getD j 0 →
        (rerankChunks env query chunks).getD i default =
          (rerankChunks env query chunks).getD j default) := by
  have heq : rerankChunks env query chunks =
      (parseRankedIndices reply chunks.length).map (fun idx => chunks.getD idx default) := by
    simp only [rerankChunks]
    rw [if_neg (by omega)]
    simp only [hok]
    rw [if_pos (List.length_pos.mpr hne)]
  refine ⟨heq, ?_, ?_⟩
  · intro c hc
    rw [heq] at hc
    obtain ⟨idx, hidx, rfl⟩ := List.mem_map.mp hc
    have hlt := parseRankedIndices_lt reply chunks.length idx hidx
    rw [List.getD_eq_getElem _ _ hlt]
    exact List.getElem_mem _
  · intro i j hi hj hij
    rw [heq]
    have hi' : i < ((parseRankedIndices reply chunks.length).map
        (fun idx => chunks.getD idx default)).length := by
      rw [List.length_map]
      exact hi
    have hj' : j < ((parseRankedIndices reply chunks.length).map
        (fun idx => chunks.getD idx default)).length := by
      rw [List.length_map]
      exact hj
    rw [List.getD_eq_getElem _ _ hi', List.getD_eq_getElem _ _ hj',
      List.getElem_map, List.getElem_map]
    rw [List.getD_eq_getElem _ _ hi, List.getD_eq_getElem _ _ hj] at hij
    rw [hij]

/-- Witness for C10: the reply `1,1,2` over four chunks yields the second
chunk twice followed by the third, all drawn from the input. -/
theorem claim_c10_witness :
    rerankChunks envRepeatIndex "qq" [chunkA, chunkB, chunkC, chunkD] =
      [chunkB, chunkB, chunkC]
    ∧ chunkB ∈ [chunkA, chunkB, chunkC, chunkD] := by
  have h := claim_c10 envRepeatIndex "qq" [chunkA, chunkB, chunkC, chunkD] "1,1,2"
    rfl (by decide) (by decide)
  exact ⟨h.1.trans (by decide), h.2.1 chunkB (by decide)⟩

end NickRag
